import Mathlib

/-!
Verification of the ckan-rescue download engine (data.json and DCAT variants).

The embedding models:
* filesystem paths as pathlib-style lists of parts
  (`pathlib.PurePath` stores a tuple of parts; joining splits each
  operand on `/`, drops empty and single-dot segments, keeps `..`, and
  an absolute operand resets the path, modelled as a leading root part
  `/` as in `PurePosixPath.parts`);
* the filesystem as the list of paths that exist (directories and files
  alike: `Path.exists()` returns true for both), threaded through the
  orchestration code as explicit state;
* the parsed `data.json` document as a JSON inductive with Python
  truthiness; `dict.get` accessors return `Option`.  A field holding a
  value of an unexpected shape (e.g. a non-list under `"dataset"`, a
  non-string identifier) would make the Python code raise; such values are
  modelled as the accessor returning the default, and no theorem below
  exercises them;
* the parsed RDF graph as an abstract structure exposing exactly the
  queries the source performs (`subjects`, `objects`, `value`, `len`);
* network fetches as explicit functions `url → Except errorMessage body`
  (for DCAT, the body comes with its declared content type);
* the worker pool as a sequential drain of the task queue: workers share
  only the queue and the failure list, every task is pulled exactly once,
  and the multiset of per-task outcomes is independent of the number of
  workers (the DCAT variant hard-pins the pool to one worker);
* `urllib.parse.urlparse(...).path` for `scheme://netloc/...` and
  scheme-less URLs (the forms the claims exercise).
-/

namespace CkanRescue

/-- A filesystem path as its list of parts, as `pathlib` stores it. -/
abbrev Path := List String

/-- The set of existing paths (files and directories), as a list. -/
abbrev Fs := List Path

/-- Split a character list at every occurrence of `c` (the accumulator
holds the current piece reversed): `splitOnChar c s.data []` models
Python's `s.split(c)` for a one-character separator. -/
def splitOnChar (c : Char) : List Char → List Char → List String
  | [], acc => [String.mk acc.reverse]
  | x :: xs, acc =>
    if x = c then String.mk acc.reverse :: splitOnChar c xs []
    else splitOnChar c xs (x :: acc)

/-- Python's `s.split(c)` for a one-character separator. -/
def splitChar (c : Char) (s : String) : List String := splitOnChar c s.data []

/-- Split a string into path segments the way `pathlib` parses each
operand of the `/` operator: split on `/` and drop empty and single-dot
segments (`..` segments are kept). -/
def seg (s : String) : Path :=
  (splitChar '/' s).filter (fun p => p ≠ "" ∧ p ≠ ".")

/-- Whether the string denotes an absolute POSIX path (leading `/`). -/
def isAbsolute (s : String) : Bool :=
  match s.data with
  | c :: _ => c = '/'
  | [] => false

/-- `p / s` on `pathlib` paths: an absolute operand resets the path —
its parts begin with the root marker `/`, as in `PurePosixPath.parts` —
otherwise the operand's segments are appended.  Joining with `""`
returns `p` unchanged, as in `pathlib`.  (The POSIX double-slash root
special case is not distinguished; no theorem relies on it.) -/
def pjoin (p : Path) (s : String) : Path :=
  if isAbsolute s then "/" :: seg s else p ++ seg s

/-- All non-empty initial portions of a path: the directories that
`mkdir(parents=True, exist_ok=True)` guarantees to exist afterwards. -/
def ancestors (p : Path) : List Path :=
  (List.range p.length).map (fun i => p.take (i + 1))

/-- Effect of `p.mkdir(parents=True, exist_ok=True)` on the filesystem. -/
def mkdirp (fs : Fs) (p : Path) : Fs := fs ++ ancestors p

/-- `Path.exists()` against the modelled filesystem. -/
def pexists (fs : Fs) (p : Path) : Bool := decide (p ∈ fs)

/-- Parsed JSON values, as `json.loads` produces them. -/
inductive Json where
  | null : Json
  | bool (b : Bool) : Json
  | num (n : Int) : Json
  | str (s : String) : Json
  | arr (elems : List Json) : Json
  | obj (fields : List (String × Json)) : Json

/-- Python truthiness of a JSON value (`if not data:` in `run`). -/
def Json.truthy : Json → Bool
  | .null => false
  | .bool b => b
  | .num n => n != 0
  | .str s => s ≠ ""
  | .arr l => !l.isEmpty
  | .obj l => !l.isEmpty

/-- `d.get(k)` on a parsed JSON object: `none` when the key is absent or
the value is not a JSON object (the code only calls this on dicts). -/
def Json.getField : Json → String → Option Json
  | .obj fields, k => fields.lookup k
  | _, _ => none

/-- `d.get(k, [])` followed by iteration: the list of elements when the
field holds an array, `[]` when the field is absent.  (A present non-list
value would make the Python `for` loop raise or iterate nonsensically;
modelled as `[]`, never exercised by the theorems.) -/
def Json.getList (j : Json) (k : String) : List Json :=
  match j.getField k with
  | some (.arr l) => l
  | _ => []

/-- `d.get(k, default)` used as a string (identifiers): the string value
when the field holds one, the default otherwise. -/
def Json.getStrD (j : Json) (k d : String) : String :=
  match j.getField k with
  | some (.str s) => s
  | _ => d

/-- `d.get(k)` used as an optional string (`downloadURL`, `fileName`). -/
def Json.getOptStr (j : Json) (k : String) : Option String :=
  match j.getField k with
  | some (.str s) => some s
  | _ => none

/-- A queued download task: the tuple
`(download_url, str(file_path), dist_id)` put on the queue. -/
structure Task where
  url : String
  filePath : Path
  distId : String
deriving DecidableEq, Repr

/-- Drop everything up to and including the first `://`, or `none` when
there is none. -/
def dropScheme : List Char → Option (List Char)
  | ':' :: '/' :: '/' :: rest => some rest
  | _ :: rest => dropScheme rest
  | [] => none

/-- `urlparse(u).path` for the URL shapes the code meets: strip fragment
and query; for `scheme://netloc/...` the path starts at the first `/`
after the authority (empty when there is none); a scheme-less string is
all path. -/
def urlPath (u : String) : String :=
  let cs := (u.data.takeWhile (fun x => x ≠ '#')).takeWhile (fun x => x ≠ '?')
  match dropScheme cs with
  | some rest => String.mk (rest.dropWhile (fun x => x ≠ '/'))
  | none => String.mk cs

/-- `os.path.basename`: everything after the last `/`. -/
def basename (p : String) : String := (splitChar '/' p).getLastD ""

namespace DataJsonDownloader

/-- `_extract_file_from_url`: the basename of the URL path, or `""` when
it is empty or equal to the whole path. -/
def _extract_file_from_url (u : String) : String :=
  let p := urlPath u
  let filename := basename p
  if filename = "" ∨ filename = p then "" else filename

/-- The filename cascade of `prepare_download_tasks` (lines 61–66):
the `fileName` field when truthy, else the URL-derived name when
non-empty, else `"dist_" ++ dist_id`. -/
def resolve_filename (dist : Json) (url distId : String) : String :=
  let f := match dist.getOptStr "fileName" with
    | some f => f
    | none => ""
  if f ≠ "" then f
  else if _extract_file_from_url url ≠ "" then _extract_file_from_url url
  else "dist_" ++ distId

/-- `dataset.get("identifier", "unknown_dataset")`. -/
def ds_id (ds : Json) : String := ds.getStrD "identifier" "unknown_dataset"

/-- `distribution.get("identifier", "unknown_distribution")`. -/
def dist_id (d : Json) : String :=
  d.getStrD "identifier" "unknown_distribution"

/-- `base_path / "data" / dataset_id / dist_id`. -/
def dest_dir (base : Path) (dsId distId : String) : Path :=
  pjoin (pjoin (pjoin base "data") dsId) distId

/-- The full destination path of a task. -/
def dest_path (base : Path) (dsId distId fn : String) : Path :=
  pjoin (dest_dir base dsId distId) fn

/-- Inner loop of `prepare_download_tasks` over one dataset's
distributions, threading the filesystem (`mkdir` effects and `exists()`
checks) and returning the enqueued tasks in order. -/
def prep_dists (base : Path) (dsId : String) : List Json → Fs → Fs × List Task
  | [], fs => (fs, [])
  | d :: rest, fs =>
    match d.getOptStr "downloadURL" with
    | some url =>
      if url = "" then prep_dists base dsId rest fs
      else
        let distId := dist_id d
        let fn := resolve_filename d url distId
        let distDir := dest_dir base dsId distId
        let fs1 := mkdirp fs distDir
        let fp := pjoin distDir fn
        if pexists fs1 fp then prep_dists base dsId rest fs1
        else
          let r := prep_dists base dsId rest fs1
          (r.1, ⟨url, fp, distId⟩ :: r.2)
    | none => prep_dists base dsId rest fs

/-- Outer loop of `prepare_download_tasks` over the datasets. -/
def prep_datasets (base : Path) : List Json → Fs → Fs × List Task
  | [], fs => (fs, [])
  | ds :: rest, fs =>
    let dsId := ds_id ds
    let r1 := prep_dists base dsId (ds.getList "distribution") fs
    let r2 := prep_datasets base rest r1.1
    (r2.1, r1.2 ++ r2.2)

/-- `DataJsonDownloader.prepare_download_tasks`: walk the catalog,
create the distribution directories, skip destinations that exist, and
enqueue the remaining tasks.  Returns the updated filesystem and the
queue contents. -/
def prepare_download_tasks (data : Json) (base : Path) (fs : Fs) :
    Fs × List Task :=
  prep_datasets base (data.getList "dataset") fs

/-- `download_worker` draining the queue: fetch each task's URL and write
the body; on any error append `f"{url} - {e}"` to `failed_downloads` and
continue.  Returns the written `(path, body)` pairs and the failure
records, in task order. -/
def download_worker (net : String → Except String String) :
    List Task → List (Path × String) × List String
  | [] => ([], [])
  | t :: rest =>
    let r := download_worker net rest
    match net t.url with
    | .ok body => ((t.filePath, body) :: r.1, r.2)
    | .error e => (r.1, (t.url ++ " - " ++ e) :: r.2)

/-- Result of `run`: the returned boolean, the final filesystem, the
tasks that were enqueued, and the failure records. -/
structure RunOut where
  ok : Bool
  fs : Fs
  tasks : List Task
  failures : List String
deriving Repr

/-- `DataJsonDownloader.run`: create the output layout, take the result
of `fetch_datajson` (`none` when fetching or parsing raised), snapshot
the catalog to `data.json`, bail out with `False` when the document is
falsy, otherwise prepare tasks, drain the queue, and return `True`. -/
def run (fetched : Option Json) (base : Path) (fs : Fs)
    (net : String → Except String String) : RunOut :=
  let fs0 := mkdirp (mkdirp fs base) (base ++ ["data"])
  match fetched with
  | none => ⟨false, fs0, [], []⟩
  | some j =>
    let fs1 := fs0 ++ [base ++ ["data.json"]]
    if j.truthy then
      let r := prepare_download_tasks j base fs1
      let w := download_worker net r.2
      ⟨true, r.1 ++ w.1.map Prod.fst, r.2, w.2⟩
    else ⟨false, fs1, [], []⟩

end DataJsonDownloader

namespace DCATDownloader

/-- The parsed RDF graph, abstracted to the queries the source performs:
`subjects(RDF.type, DCAT.Dataset)` (in generator order), `objects(ds,
DCAT.distribution)`, `value(dist, DCAT.downloadURL)`, `value(dist,
DCAT.accessURL)` and `len(graph)` (`if not data:` falls back to
`__len__`).  Resources and property values are their string forms. -/
structure Graph where
  datasets : List String
  distsOf : String → List String
  dlUrl : String → Option String
  accUrl : String → Option String
  tripleCount : Nat

/-- `_get_identifier`: the trailing `/`-segment of the resource URI,
`resource.split("/")[-1]`. -/
def _get_identifier (uri : String) : String := (splitChar '/' uri).getLastD ""

/-- `_extract_file_from_url` (duplicated verbatim in the source). -/
def _extract_file_from_url (u : String) : String :=
  let p := urlPath u
  let filename := basename p
  if filename = "" ∨ filename = p then "" else filename

/-- `_get_download_url`: the `downloadURL` value when truthy (an rdflib
term is a `str` subclass, so an empty value is falsy), else the
`accessURL` value (which may itself be absent). -/
def _get_download_url (g : Graph) (dist : String) : Option String :=
  match g.dlUrl dist with
  | some s => if s = "" then g.accUrl dist else some s
  | none => g.accUrl dist

/-- Inner loop of `prepare_download_tasks` over one dataset's
distributions, threading the filesystem. -/
def prep_dists (g : Graph) (base : Path) (dataset : String) :
    List String → Fs → Fs × List Task
  | [], fs => (fs, [])
  | dist :: rest, fs =>
    match _get_download_url g dist with
    | some url =>
      if url = "" then prep_dists g base dataset rest fs
      else
        let distId := _get_identifier dist
        let datasetId := _get_identifier dataset
        let fn := _extract_file_from_url url
        let distDir := pjoin (pjoin (base ++ ["data"]) datasetId) distId
        let fs1 := mkdirp fs distDir
        let fp := pjoin distDir fn
        if pexists fs1 fp then prep_dists g base dataset rest fs1
        else
          let r := prep_dists g base dataset rest fs1
          (r.1, ⟨url, fp, distId⟩ :: r.2)
    | none => prep_dists g base dataset rest fs

/-- Outer loop of `prepare_download_tasks` over the selected datasets. -/
def prep_datasets (g : Graph) (base : Path) :
    List String → Fs → Fs × List Task
  | [], fs => (fs, [])
  | ds :: rest, fs =>
    let r1 := prep_dists g base ds (g.distsOf ds) fs
    let r2 := prep_datasets g base rest r1.1
    (r2.1, r1.2 ++ r2.2)

/-- `DCATDownloader.prepare_download_tasks`: iterate the subjects typed
as `dcat:Dataset`, capped to the first 5, and their distributions. -/
def prepare_download_tasks (g : Graph) (base : Path) (fs : Fs) :
    Fs × List Task :=
  prep_datasets g base (g.datasets.take 5) fs

/-- `download_worker` draining the queue: fetch each task's URL; when the
declared content type is `text/html`, log a warning naming the `dist_id`;
write the body either way; on any error append `f"{url} - {e}"` and
continue.  Returns writes, failures and warned ids, in task order. -/
def download_worker (net : String → Except String (String × String)) :
    List Task → List (Path × String) × List String × List String
  | [] => ([], [], [])
  | t :: rest =>
    let r := download_worker net rest
    match net t.url with
    | .ok (ctype, body) =>
      ((t.filePath, body) :: r.1, r.2.1,
        (if ctype = "text/html" then [t.distId] else []) ++ r.2.2)
    | .error e => (r.1, (t.url ++ " - " ++ e) :: r.2.1, r.2.2)

/-- Outcome of `fetch_dcatfile` up to the point `run` inspects it:
`urlretrieve` raised (caught, `None` returned); `Graph.parse` raised
(uncaught — it sits outside the `try` block); or a parsed graph. -/
inductive FetchOutcome where
  | fetchFail : FetchOutcome
  | parseFail : FetchOutcome
  | parsed (g : Graph) : FetchOutcome

/-- Result of a DCAT `run` that did not raise. -/
structure RunOut where
  ok : Bool
  fs : Fs
  tasks : List Task
  failures : List String
  warnings : List String

/-- `DCATDownloader.run`: create the output layout, fetch the catalog
file (`catalogName` is the basename of the catalog URL, written under the
portal directory), parse it — a parse error propagates as an uncaught
exception, modelled as `Except.error` — bail out with `False` when the
graph is falsy (no triples), otherwise prepare tasks, drain the queue
and return `True`. -/
def run (f : FetchOutcome) (base : Path) (catalogName : String) (fs : Fs)
    (net : String → Except String (String × String)) :
    Except Unit RunOut :=
  let fs0 := mkdirp (mkdirp fs base) (base ++ ["data"])
  match f with
  | .fetchFail => .ok ⟨false, fs0, [], [], []⟩
  | .parseFail => .error ()
  | .parsed g =>
    let fs1 := fs0 ++ [pjoin base catalogName]
    if g.tripleCount = 0 then .ok ⟨false, fs1, [], [], []⟩
    else
      let r := prepare_download_tasks g base fs1
      let w := download_worker net r.2
      .ok ⟨true, r.1 ++ w.1.map Prod.fst, r.2, w.2.1, w.2.2⟩

end DCATDownloader

/-!
Spec-side auxiliaries.  The definitions below follow the specification's
words (candidate tasks before deduplication, the resolvable-distribution
count, lexical path normalization) and are used to state refinement
claims against the source-derived definitions above.
-/

namespace DataJsonDownloader

/-- Candidate tasks of one dataset before deduplication, per the spec's
Catalog Normalizer contract: one task per distribution with a truthy
download URL, with the destination path of §3. -/
def cand_dists (base : Path) (dsId : String) : List Json → List Task
  | [] => []
  | d :: rest =>
    match d.getOptStr "downloadURL" with
    | some url =>
      if url = "" then cand_dists base dsId rest
      else
        let distId := dist_id d
        ⟨url, dest_path base dsId distId (resolve_filename d url distId),
          distId⟩ :: cand_dists base dsId rest
    | none => cand_dists base dsId rest

/-- Candidate tasks of the whole catalog before deduplication. -/
def cand_datasets (base : Path) : List Json → List Task
  | [] => []
  | ds :: rest =>
    cand_dists base (ds_id ds)
      (ds.getList "distribution") ++ cand_datasets base rest

/-- Directories created while preparing one dataset's distributions
(independent of the filesystem: `mkdir` runs for every distribution with
a truthy URL, before the existence check). -/
def dirs_dists (base : Path) (dsId : String) : List Json → List Path
  | [] => []
  | d :: rest =>
    match d.getOptStr "downloadURL" with
    | some url =>
      if url = "" then dirs_dists base dsId rest
      else
        ancestors (dest_dir base dsId
          (dist_id d)) ++
          dirs_dists base dsId rest
    | none => dirs_dists base dsId rest

/-- Directories created while preparing the whole catalog. -/
def dirs_datasets (base : Path) : List Json → List Path
  | [] => []
  | ds :: rest =>
    dirs_dists base (ds_id ds)
      (ds.getList "distribution") ++ dirs_datasets base rest

end DataJsonDownloader

namespace DCATDownloader

/-- Candidate tasks of one dataset's distributions before deduplication,
per the spec's Catalog Normalizer contract for the DCAT variant. -/
def cand_dists (g : Graph) (base : Path) (dataset : String) :
    List String → List Task
  | [] => []
  | dist :: rest =>
    match _get_download_url g dist with
    | some url =>
      if url = "" then cand_dists g base dataset rest
      else
        let distId := _get_identifier dist
        ⟨url,
          pjoin (pjoin (pjoin (base ++ ["data"]) (_get_identifier dataset))
            distId) (_extract_file_from_url url),
          distId⟩ :: cand_dists g base dataset rest
    | none => cand_dists g base dataset rest

/-- Candidate tasks of the selected datasets before deduplication. -/
def cand_datasets (g : Graph) (base : Path) : List String → List Task
  | [] => []
  | ds :: rest =>
    cand_dists g base ds (g.distsOf ds) ++ cand_datasets g base rest

/-- Directories created while preparing one dataset's distributions. -/
def dirs_dists (g : Graph) (base : Path) (dataset : String) :
    List String → List Path
  | [] => []
  | dist :: rest =>
    match _get_download_url g dist with
    | some url =>
      if url = "" then dirs_dists g base dataset rest
      else
        ancestors (pjoin (pjoin (base ++ ["data"])
          (_get_identifier dataset)) (_get_identifier dist)) ++
          dirs_dists g base dataset rest
    | none => dirs_dists g base dataset rest

/-- Directories created while preparing the selected datasets. -/
def dirs_datasets (g : Graph) (base : Path) : List String → List Path
  | [] => []
  | ds :: rest =>
    dirs_dists g base ds (g.distsOf ds) ++ dirs_datasets g base rest

end DCATDownloader

/-- One step of lexical path normalization: `..` removes the previous
segment (when any), `.` is dropped, every other segment is kept. -/
def normStep (acc : Path) (s : String) : Path :=
  if s = ".." then acc.dropLast else if s = "." then acc else acc ++ [s]

/-- Lexical normalization of a path's segments, resolving `..` and `.`:
used to state where a destination path actually points. -/
def normalize_segments (p : Path) : Path := p.foldl normStep []

/-! Basic lemmas about the filesystem model. -/

theorem pexists_iff {fs : Fs} {p : Path} : pexists fs p = true ↔ p ∈ fs := by
  simp [pexists]

theorem mem_ancestors_length {p q : Path} (h : q ∈ ancestors p) :
    q.length ≤ p.length := by
  simp only [ancestors, List.mem_map, List.mem_range] at h
  obtain ⟨i, _, rfl⟩ := h
  simp [List.length_take]

theorem self_mem_ancestors {p : Path} (h : p ≠ []) : p ∈ ancestors p := by
  have hlen : 0 < p.length := List.length_pos.mpr h
  simp only [ancestors, List.mem_map, List.mem_range]
  refine ⟨p.length - 1, by omega, ?_⟩
  have h1 : p.length - 1 + 1 = p.length := by omega
  rw [h1, List.take_length]

theorem mem_mkdirp {fs : Fs} {p q : Path} :
    q ∈ mkdirp fs p ↔ q ∈ fs ∨ q ∈ ancestors p := List.mem_append

theorem seg_empty : seg "" = [] := by decide

theorem pjoin_empty (p : Path) : pjoin p "" = p := by
  simp [pjoin, seg_empty, show isAbsolute "" = false from by decide]

theorem splitOnChar_mem_length {c : Char} :
    ∀ (l acc : List Char) (s : String), s ∈ splitOnChar c l acc →
      s.length ≤ l.length + acc.length := by
  intro l
  induction l with
  | nil =>
    intro acc s hs
    simp only [splitOnChar, List.mem_singleton] at hs
    subst hs
    simp [String.length]
  | cons x xs ih =>
    intro acc s hs
    simp only [splitOnChar] at hs
    by_cases hx : x = c
    · rw [if_pos hx] at hs
      rcases List.mem_cons.mp hs with rfl | h
      · simp only [String.length, List.length_reverse, List.length_cons]
        omega
      · have := ih [] s h
        simp only [List.length_nil, List.length_cons] at this ⊢
        omega
    · rw [if_neg hx] at hs
      have := ih (x :: acc) s hs
      simp only [List.length_cons] at this ⊢
      omega

/-- A string that `pathlib` keeps as a single segment of itself cannot
be an absolute operand. -/
theorem seg_single_not_abs {x : String} (h : seg x = [x]) :
    isAbsolute x = false := by
  cases hd : x.data with
  | nil => simp [isAbsolute, hd]
  | cons c rest =>
    simp only [isAbsolute, hd]
    by_cases hc : c = '/'
    · exfalso
      subst hc
      have hmem : x ∈ splitChar '/' x := by
        have hx : x ∈ seg x := by
          rw [h]; exact List.mem_singleton.mpr rfl
        exact (List.mem_filter.mp hx).1
      rw [splitChar, hd] at hmem
      simp only [splitOnChar, if_pos rfl, if_true] at hmem
      rcases List.mem_cons.mp hmem with hx0 | hx1
      · have hxd : x.data = [] := by
          simp [hx0]
        rw [hd] at hxd
        exact absurd hxd (by simp)
      · have hle := splitOnChar_mem_length rest [] x hx1
        have hlen : x.length = rest.length + 1 := by
          simp [String.length, hd]
        simp only [List.length_nil] at hle
        omega
    · simp [hc]

/-- Joining a single-segment operand appends it as one part. -/
theorem pjoin_seg_single {s : String} (h : seg s = [s]) (p : Path) :
    pjoin p s = p ++ [s] := by
  unfold pjoin
  rw [seg_single_not_abs h]
  simp [h]

theorem pjoin_ne_nil {p : Path} (hp : p ≠ []) (s : String) :
    pjoin p s ≠ [] := by
  unfold pjoin
  split
  · simp
  · simp [hp]

namespace DataJsonDownloader

/-! Lemmas about the data.json task preparation. -/

theorem dj_prep_dists_fs (base : Path) (dsId : String) (l : List Json)
    (fs : Fs) :
    (prep_dists base dsId l fs).1 = fs ++ dirs_dists base dsId l := by
  induction l generalizing fs with
  | nil => simp [prep_dists, dirs_dists]
  | cons d rest ih =>
    simp only [prep_dists, dirs_dists]
    cases hurl : d.getOptStr "downloadURL" with
    | none => simpa using ih fs
    | some url =>
      simp only
      by_cases hu : url = ""
      · simpa [hu] using ih fs
      · simp only [if_neg hu]
        split
        · rw [ih]; simp [mkdirp, List.append_assoc]
        · rw [ih]; simp [mkdirp, List.append_assoc]

theorem dj_prep_datasets_fs (base : Path) (l : List Json) (fs : Fs) :
    (prep_datasets base l fs).1 = fs ++ dirs_datasets base l := by
  induction l generalizing fs with
  | nil => simp [prep_datasets, dirs_datasets]
  | cons ds rest ih =>
    simp only [prep_datasets, dirs_datasets]
    rw [ih, dj_prep_dists_fs, List.append_assoc]

theorem dj_prep_dists_fresh {base : Path} {dsId : String} {l : List Json}
    {fs : Fs} {t : Task} (ht : t ∈ (prep_dists base dsId l fs).2) :
    t.filePath ∉ fs := by
  induction l generalizing fs with
  | nil => simp [prep_dists] at ht
  | cons d rest ih =>
    cases hurl : d.getOptStr "downloadURL" with
    | none =>
      simp only [prep_dists, hurl] at ht
      exact ih ht
    | some url =>
      simp only [prep_dists, hurl] at ht
      by_cases hu : url = ""
      · rw [if_pos hu] at ht; exact ih ht
      · rw [if_neg hu] at ht
        set distId := dist_id d
        set fn := resolve_filename d url distId
        set distDir := dest_dir base dsId distId
        set fs1 := mkdirp fs distDir with hfs1
        set fp := pjoin distDir fn
        by_cases hex : pexists fs1 fp = true
        · rw [if_pos hex] at ht
          intro hmem
          exact ih ht (by simp [hfs1, mem_mkdirp]; exact Or.inl hmem)
        · rw [if_neg (by simpa using hex)] at ht
          rcases List.mem_cons.mp ht with rfl | hrest
          · intro hmem
            exact hex (pexists_iff.mpr (by simp [hfs1, mem_mkdirp, hmem]))
          · intro hmem
            exact ih hrest (by simp [hfs1, mem_mkdirp]; exact Or.inl hmem)

theorem dj_prep_datasets_fresh {base : Path} {l : List Json} {fs : Fs}
    {t : Task} (ht : t ∈ (prep_datasets base l fs).2) : t.filePath ∉ fs := by
  induction l generalizing fs with
  | nil => simp [prep_datasets] at ht
  | cons ds rest ih =>
    simp only [prep_datasets] at ht
    rcases List.mem_append.mp ht with h1 | h2
    · exact dj_prep_dists_fresh h1
    · intro hmem
      refine ih h2 ?_
      rw [dj_prep_dists_fs]
      exact List.mem_append.mpr (Or.inl hmem)

theorem dj_prep_dists_shape {base : Path} {dsId : String} {l : List Json}
    {fs : Fs} {t : Task} (ht : t ∈ (prep_dists base dsId l fs).2) :
    ∃ d ∈ l, ∃ url, d.getOptStr "downloadURL" = some url ∧ url ≠ "" ∧
      t = ⟨url, dest_path base dsId (dist_id d) (resolve_filename d url
        (dist_id d)), dist_id d⟩ := by
  induction l generalizing fs with
  | nil => simp [prep_dists] at ht
  | cons d rest ih =>
    cases hurl : d.getOptStr "downloadURL" with
    | none =>
      simp only [prep_dists, hurl] at ht
      obtain ⟨d', hd', h⟩ := ih ht
      exact ⟨d', List.mem_cons_of_mem _ hd', h⟩
    | some url =>
      simp only [prep_dists, hurl] at ht
      by_cases hu : url = ""
      · rw [if_pos hu] at ht
        obtain ⟨d', hd', h⟩ := ih ht
        exact ⟨d', List.mem_cons_of_mem _ hd', h⟩
      · rw [if_neg hu] at ht
        split at ht
        · obtain ⟨d', hd', h⟩ := ih ht
          exact ⟨d', List.mem_cons_of_mem _ hd', h⟩
        · rcases List.mem_cons.mp ht with rfl | hrest
          · exact ⟨d, List.mem_cons_self d rest, url, hurl, hu, rfl⟩
          · obtain ⟨d', hd', h⟩ := ih hrest
            exact ⟨d', List.mem_cons_of_mem _ hd', h⟩

theorem dj_prep_datasets_shape {base : Path} {l : List Json} {fs : Fs}
    {t : Task} (ht : t ∈ (prep_datasets base l fs).2) :
    ∃ ds ∈ l, ∃ d ∈ ds.getList "distribution", ∃ url,
      d.getOptStr "downloadURL" = some url ∧ url ≠ "" ∧
      t = ⟨url, dest_path base (ds_id ds) (dist_id d)
        (resolve_filename d url (dist_id d)), dist_id d⟩ := by
  induction l generalizing fs with
  | nil => simp [prep_datasets] at ht
  | cons ds rest ih =>
    simp only [prep_datasets] at ht
    rcases List.mem_append.mp ht with h1 | h2
    · obtain ⟨d', hd', h⟩ := dj_prep_dists_shape h1
      exact ⟨ds, List.mem_cons_self ds rest, d', hd', h⟩
    · obtain ⟨ds', hds', h⟩ := ih h2
      exact ⟨ds', List.mem_cons_of_mem _ hds', h⟩

theorem dj_prep_dists_mono {base : Path} {dsId : String} {l : List Json}
    {fs fs' : Fs} (hsub : ∀ p, p ∈ fs → p ∈ fs')
    (htasks : ∀ t ∈ (prep_dists base dsId l fs).2, t.filePath ∈ fs') :
    (prep_dists base dsId l fs').2 = [] := by
  induction l generalizing fs fs' with
  | nil => simp [prep_dists]
  | cons d rest ih =>
    cases hurl : d.getOptStr "downloadURL" with
    | none =>
      simp only [prep_dists, hurl] at htasks ⊢
      exact ih hsub htasks
    | some url =>
      simp only [prep_dists, hurl] at htasks ⊢
      by_cases hu : url = ""
      · rw [if_pos hu] at htasks ⊢
        exact ih hsub htasks
      · rw [if_neg hu] at htasks ⊢
        set distDir := dest_dir base dsId (dist_id d) with hdd
        set fp := pjoin distDir (resolve_filename d url (dist_id d)) with hfp
        have hsub1 : ∀ p, p ∈ mkdirp fs distDir → p ∈ mkdirp fs' distDir := by
          intro p hp
          rcases mem_mkdirp.mp hp with h | h
          · exact mem_mkdirp.mpr (Or.inl (hsub _ h))
          · exact mem_mkdirp.mpr (Or.inr h)
        by_cases hex : pexists (mkdirp fs distDir) fp = true
        · rw [if_pos hex] at htasks
          rw [if_pos (pexists_iff.mpr (hsub1 _ (pexists_iff.mp hex)))]
          exact ih hsub1
            (fun t ht => mem_mkdirp.mpr (Or.inl (htasks t ht)))
        · rw [if_neg (by simpa using hex)] at htasks
          have hhead : fp ∈ fs' := by
            have := htasks _ (List.mem_cons_self _ _)
            simpa using this
          rw [if_pos (pexists_iff.mpr (mem_mkdirp.mpr (Or.inl hhead)))]
          exact ih hsub1 (fun t ht =>
            mem_mkdirp.mpr (Or.inl (htasks t (List.mem_cons_of_mem _ ht))))

theorem dj_prep_datasets_mono {base : Path} {l : List Json} {fs fs' : Fs}
    (hsub : ∀ p, p ∈ fs → p ∈ fs')
    (htasks : ∀ t ∈ (prep_datasets base l fs).2, t.filePath ∈ fs') :
    (prep_datasets base l fs').2 = [] := by
  induction l generalizing fs fs' with
  | nil => simp [prep_datasets]
  | cons ds rest ih =>
    simp only [prep_datasets] at htasks ⊢
    have h1 : (prep_dists base (ds_id ds) (ds.getList "distribution") fs').2
        = [] :=
      dj_prep_dists_mono hsub
        (fun t ht => htasks t (List.mem_append.mpr (Or.inl ht)))
    rw [h1]
    have hsub1 : ∀ p,
        p ∈ (prep_dists base (ds_id ds) (ds.getList "distribution") fs).1 →
        p ∈ (prep_dists base (ds_id ds) (ds.getList "distribution") fs').1 := by
      intro p hp
      rw [dj_prep_dists_fs] at hp ⊢
      rcases List.mem_append.mp hp with h | h
      · exact List.mem_append.mpr (Or.inl (hsub _ h))
      · exact List.mem_append.mpr (Or.inr h)
    have h2 := ih hsub1 (fun t ht => by
      have hmem : t.filePath ∈ fs' :=
        htasks t (List.mem_append.mpr (Or.inr ht))
      rw [dj_prep_dists_fs]
      exact List.mem_append.mpr (Or.inl hmem))
    rw [h2]
    simp

theorem seg_data : seg "data" = ["data"] := by decide

theorem dj_dest_dir_length {base : Path} {dsId distId : String}
    (hds : seg dsId = [dsId]) (hdi : seg distId = [distId]) :
    (dest_dir base dsId distId).length = base.length + 3 := by
  unfold dest_dir
  rw [pjoin_seg_single hdi, pjoin_seg_single hds, pjoin_seg_single seg_data]
  simp

theorem dj_dirs_dists_length {base : Path} {dsId : String} {l : List Json}
    (hds : seg dsId = [dsId])
    (hdist : ∀ d ∈ l, seg (dist_id d) = [dist_id d])
    {q : Path} (hq : q ∈ dirs_dists base dsId l) :
    q.length ≤ base.length + 3 := by
  induction l with
  | nil => simp [dirs_dists] at hq
  | cons d rest ih =>
    cases hurl : d.getOptStr "downloadURL" with
    | none =>
      simp only [dirs_dists, hurl] at hq
      exact ih (fun x hx => hdist x (List.mem_cons_of_mem _ hx)) hq
    | some url =>
      simp only [dirs_dists, hurl] at hq
      by_cases hu : url = ""
      · rw [if_pos hu] at hq
        exact ih (fun x hx => hdist x (List.mem_cons_of_mem _ hx)) hq
      · rw [if_neg hu] at hq
        rcases List.mem_append.mp hq with h | h
        · have := mem_ancestors_length h
          rwa [dj_dest_dir_length hds
            (hdist d (List.mem_cons_self d rest))] at this
        · exact ih (fun x hx => hdist x (List.mem_cons_of_mem _ hx)) h

theorem dj_dirs_datasets_length {base : Path} {l : List Json}
    (hids : ∀ ds ∈ l, seg (ds_id ds) = [ds_id ds] ∧
      ∀ d ∈ ds.getList "distribution", seg (dist_id d) = [dist_id d])
    {q : Path} (hq : q ∈ dirs_datasets base l) :
    q.length ≤ base.length + 3 := by
  induction l with
  | nil => simp [dirs_datasets] at hq
  | cons ds rest ih =>
    simp only [dirs_datasets] at hq
    rcases List.mem_append.mp hq with h | h
    · exact dj_dirs_dists_length (hids ds (List.mem_cons_self ds rest)).1
        (hids ds (List.mem_cons_self ds rest)).2 h
    · exact ih (fun x hx => hids x (List.mem_cons_of_mem _ hx)) h

theorem dj_worker_failures (net : String → Except String String)
    (ts : List Task) :
    (download_worker net ts).2 = ts.filterMap (fun t =>
      match net t.url with
      | .ok _ => none
      | .error e => some (t.url ++ " - " ++ e)) := by
  induction ts with
  | nil => rfl
  | cons t rest ih =>
    simp only [download_worker, List.filterMap_cons]
    cases net t.url <;> simp [ih]

theorem dj_worker_writes (net : String → Except String String)
    (ts : List Task) :
    (download_worker net ts).1 = ts.filterMap (fun t =>
      match net t.url with
      | .ok body => some (t.filePath, body)
      | .error _ => none) := by
  induction ts with
  | nil => rfl
  | cons t rest ih =>
    simp only [download_worker, List.filterMap_cons]
    cases net t.url <;> simp [ih]

theorem dj_worker_all_ok {net : String → Except String String}
    {ts : List Task} (h : (download_worker net ts).2 = []) :
    (download_worker net ts).1.map Prod.fst = ts.map Task.filePath := by
  induction ts with
  | nil => rfl
  | cons t rest ih =>
    simp only [download_worker] at h ⊢
    cases hnet : net t.url with
    | ok body =>
      rw [hnet] at h
      simp only at h ⊢
      simp [ih h]
    | error e =>
      rw [hnet] at h
      simp at h

end DataJsonDownloader

namespace DCATDownloader

/-! Lemmas about the DCAT task preparation, mirroring the data.json
ones (the source duplicates the engine across the two variants). -/

theorem dcat_prep_dists_fs (g : Graph) (base : Path) (dataset : String)
    (l : List String) (fs : Fs) :
    (prep_dists g base dataset l fs).1 = fs ++ dirs_dists g base dataset l := by
  induction l generalizing fs with
  | nil => simp [prep_dists, dirs_dists]
  | cons dist rest ih =>
    simp only [prep_dists, dirs_dists]
    cases hurl : _get_download_url g dist with
    | none => simpa using ih fs
    | some url =>
      simp only
      by_cases hu : url = ""
      · simpa [hu] using ih fs
      · simp only [if_neg hu]
        split
        · rw [ih]; simp [mkdirp, List.append_assoc]
        · rw [ih]; simp [mkdirp, List.append_assoc]

theorem dcat_prep_datasets_fs (g : Graph) (base : Path) (l : List String)
    (fs : Fs) :
    (prep_datasets g base l fs).1 = fs ++ dirs_datasets g base l := by
  induction l generalizing fs with
  | nil => simp [prep_datasets, dirs_datasets]
  | cons ds rest ih =>
    simp only [prep_datasets, dirs_datasets]
    rw [ih, dcat_prep_dists_fs, List.append_assoc]

theorem dcat_prep_dists_fresh {g : Graph} {base : Path} {dataset : String}
    {l : List String} {fs : Fs} {t : Task}
    (ht : t ∈ (prep_dists g base dataset l fs).2) : t.filePath ∉ fs := by
  induction l generalizing fs with
  | nil => simp [prep_dists] at ht
  | cons dist rest ih =>
    cases hurl : _get_download_url g dist with
    | none =>
      simp only [prep_dists, hurl] at ht
      exact ih ht
    | some url =>
      simp only [prep_dists, hurl] at ht
      by_cases hu : url = ""
      · rw [if_pos hu] at ht; exact ih ht
      · rw [if_neg hu] at ht
        set distDir := pjoin (pjoin (base ++ ["data"])
          (_get_identifier dataset)) (_get_identifier dist) with hdd
        set fp := pjoin distDir (_extract_file_from_url url) with hfp
        by_cases hex : pexists (mkdirp fs distDir) fp = true
        · rw [if_pos hex] at ht
          intro hmem
          exact ih ht (by simp [mem_mkdirp]; exact Or.inl hmem)
        · rw [if_neg (by simpa using hex)] at ht
          rcases List.mem_cons.mp ht with rfl | hrest
          · intro hmem
            exact hex (pexists_iff.mpr (by simp [mem_mkdirp, hmem]))
          · intro hmem
            exact ih hrest (by simp [mem_mkdirp]; exact Or.inl hmem)

theorem dcat_prep_datasets_fresh {g : Graph} {base : Path}
    {l : List String} {fs : Fs} {t : Task}
    (ht : t ∈ (prep_datasets g base l fs).2) : t.filePath ∉ fs := by
  induction l generalizing fs with
  | nil => simp [prep_datasets] at ht
  | cons ds rest ih =>
    simp only [prep_datasets] at ht
    rcases List.mem_append.mp ht with h1 | h2
    · exact dcat_prep_dists_fresh h1
    · intro hmem
      refine ih h2 ?_
      rw [dcat_prep_dists_fs]
      exact List.mem_append.mpr (Or.inl hmem)

theorem dcat_prep_dists_shape {g : Graph} {base : Path} {dataset : String}
    {l : List String} {fs : Fs} {t : Task}
    (ht : t ∈ (prep_dists g base dataset l fs).2) :
    ∃ dist ∈ l, ∃ url, _get_download_url g dist = some url ∧ url ≠ "" ∧
      _extract_file_from_url url ≠ "" ∧
      t = ⟨url, pjoin (pjoin (pjoin (base ++ ["data"])
        (_get_identifier dataset)) (_get_identifier dist))
        (_extract_file_from_url url), _get_identifier dist⟩ := by
  induction l generalizing fs with
  | nil => simp [prep_dists] at ht
  | cons dist rest ih =>
    cases hurl : _get_download_url g dist with
    | none =>
      simp only [prep_dists, hurl] at ht
      obtain ⟨d', hd', h⟩ := ih ht
      exact ⟨d', List.mem_cons_of_mem _ hd', h⟩
    | some url =>
      simp only [prep_dists, hurl] at ht
      by_cases hu : url = ""
      · rw [if_pos hu] at ht
        obtain ⟨d', hd', h⟩ := ih ht
        exact ⟨d', List.mem_cons_of_mem _ hd', h⟩
      · rw [if_neg hu] at ht
        set distDir := pjoin (pjoin (base ++ ["data"])
          (_get_identifier dataset)) (_get_identifier dist) with hdd
        by_cases hex : pexists (mkdirp fs distDir)
            (pjoin distDir (_extract_file_from_url url)) = true
        · rw [if_pos hex] at ht
          obtain ⟨d', hd', h⟩ := ih ht
          exact ⟨d', List.mem_cons_of_mem _ hd', h⟩
        · rw [if_neg (by simpa using hex)] at ht
          rcases List.mem_cons.mp ht with rfl | hrest
          · refine ⟨dist, List.mem_cons_self dist rest, url, hurl, hu,
              ?_, rfl⟩
            intro hfn
            apply hex
            have hdne : distDir ≠ [] := by
              rw [hdd]
              exact pjoin_ne_nil (pjoin_ne_nil (by simp) _) _
            have : pjoin distDir (_extract_file_from_url url) = distDir := by
              rw [hfn, pjoin_empty]
            rw [this]
            exact pexists_iff.mpr
              (mem_mkdirp.mpr (Or.inr (self_mem_ancestors hdne)))
          · obtain ⟨d', hd', h⟩ := ih hrest
            exact ⟨d', List.mem_cons_of_mem _ hd', h⟩

theorem dcat_prep_datasets_shape {g : Graph} {base : Path}
    {l : List String} {fs : Fs} {t : Task}
    (ht : t ∈ (prep_datasets g base l fs).2) :
    ∃ ds ∈ l, ∃ dist ∈ g.distsOf ds, ∃ url,
      _get_download_url g dist = some url ∧ url ≠ "" ∧
      _extract_file_from_url url ≠ "" ∧
      t = ⟨url, pjoin (pjoin (pjoin (base ++ ["data"])
        (_get_identifier ds)) (_get_identifier dist))
        (_extract_file_from_url url), _get_identifier dist⟩ := by
  induction l generalizing fs with
  | nil => simp [prep_datasets] at ht
  | cons ds rest ih =>
    simp only [prep_datasets] at ht
    rcases List.mem_append.mp ht with h1 | h2
    · obtain ⟨d', hd', h⟩ := dcat_prep_dists_shape h1
      exact ⟨ds, List.mem_cons_self ds rest, d', hd', h⟩
    · obtain ⟨ds', hds', h⟩ := ih h2
      exact ⟨ds', List.mem_cons_of_mem _ hds', h⟩

theorem dcat_prep_dists_mono {g : Graph} {base : Path} {dataset : String}
    {l : List String} {fs fs' : Fs} (hsub : ∀ p, p ∈ fs → p ∈ fs')
    (htasks : ∀ t ∈ (prep_dists g base dataset l fs).2, t.filePath ∈ fs') :
    (prep_dists g base dataset l fs').2 = [] := by
  induction l generalizing fs fs' with
  | nil => simp [prep_dists]
  | cons dist rest ih =>
    cases hurl : _get_download_url g dist with
    | none =>
      simp only [prep_dists, hurl] at htasks ⊢
      exact ih hsub htasks
    | some url =>
      simp only [prep_dists, hurl] at htasks ⊢
      by_cases hu : url = ""
      · rw [if_pos hu] at htasks ⊢
        exact ih hsub htasks
      · rw [if_neg hu] at htasks ⊢
        set distDir := pjoin (pjoin (base ++ ["data"])
          (_get_identifier dataset)) (_get_identifier dist) with hdd
        set fp := pjoin distDir (_extract_file_from_url url) with hfp
        have hsub1 : ∀ p, p ∈ mkdirp fs distDir → p ∈ mkdirp fs' distDir := by
          intro p hp
          rcases mem_mkdirp.mp hp with h | h
          · exact mem_mkdirp.mpr (Or.inl (hsub _ h))
          · exact mem_mkdirp.mpr (Or.inr h)
        by_cases hex : pexists (mkdirp fs distDir) fp = true
        · rw [if_pos hex] at htasks
          rw [if_pos (pexists_iff.mpr (hsub1 _ (pexists_iff.mp hex)))]
          exact ih hsub1
            (fun t ht => mem_mkdirp.mpr (Or.inl (htasks t ht)))
        · rw [if_neg (by simpa using hex)] at htasks
          have hhead : fp ∈ fs' := by
            have := htasks _ (List.mem_cons_self _ _)
            simpa using this
          rw [if_pos (pexists_iff.mpr (mem_mkdirp.mpr (Or.inl hhead)))]
          exact ih hsub1 (fun t ht =>
            mem_mkdirp.mpr (Or.inl (htasks t (List.mem_cons_of_mem _ ht))))

theorem dcat_prep_datasets_mono {g : Graph} {base : Path}
    {l : List String} {fs fs' : Fs} (hsub : ∀ p, p ∈ fs → p ∈ fs')
    (htasks : ∀ t ∈ (prep_datasets g base l fs).2, t.filePath ∈ fs') :
    (prep_datasets g base l fs').2 = [] := by
  induction l generalizing fs fs' with
  | nil => simp [prep_datasets]
  | cons ds rest ih =>
    simp only [prep_datasets] at htasks ⊢
    have h1 : (prep_dists g base ds (g.distsOf ds) fs').2 = [] :=
      dcat_prep_dists_mono hsub
        (fun t ht => htasks t (List.mem_append.mpr (Or.inl ht)))
    rw [h1]
    have hsub1 : ∀ p, p ∈ (prep_dists g base ds (g.distsOf ds) fs).1 →
        p ∈ (prep_dists g base ds (g.distsOf ds) fs').1 := by
      intro p hp
      rw [dcat_prep_dists_fs] at hp ⊢
      rcases List.mem_append.mp hp with h | h
      · exact List.mem_append.mpr (Or.inl (hsub _ h))
      · exact List.mem_append.mpr (Or.inr h)
    have h2 := ih hsub1 (fun t ht => by
      have hmem : t.filePath ∈ fs' :=
        htasks t (List.mem_append.mpr (Or.inr ht))
      rw [dcat_prep_dists_fs]
      exact List.mem_append.mpr (Or.inl hmem))
    rw [h2]
    simp

theorem dcat_dest_dir_length {base : Path} {dsU distU : String}
    (hds : seg (_get_identifier dsU) = [_get_identifier dsU])
    (hdi : seg (_get_identifier distU) = [_get_identifier distU]) :
    (pjoin (pjoin (base ++ ["data"]) (_get_identifier dsU))
      (_get_identifier distU)).length = base.length + 3 := by
  rw [pjoin_seg_single hdi, pjoin_seg_single hds]
  simp

theorem dcat_dirs_dists_length {g : Graph} {base : Path} {dsU : String}
    {l : List String}
    (hds : seg (_get_identifier dsU) = [_get_identifier dsU])
    (hdist : ∀ dist ∈ l, seg (_get_identifier dist) = [_get_identifier dist])
    {q : Path} (hq : q ∈ dirs_dists g base dsU l) :
    q.length ≤ base.length + 3 := by
  induction l with
  | nil => simp [dirs_dists] at hq
  | cons dist rest ih =>
    cases hurl : _get_download_url g dist with
    | none =>
      simp only [dirs_dists, hurl] at hq
      exact ih (fun x hx => hdist x (List.mem_cons_of_mem _ hx)) hq
    | some url =>
      simp only [dirs_dists, hurl] at hq
      by_cases hu : url = ""
      · rw [if_pos hu] at hq
        exact ih (fun x hx => hdist x (List.mem_cons_of_mem _ hx)) hq
      · rw [if_neg hu] at hq
        rcases List.mem_append.mp hq with h | h
        · have := mem_ancestors_length h
          rwa [dcat_dest_dir_length hds
            (hdist dist (List.mem_cons_self dist rest))] at this
        · exact ih (fun x hx => hdist x (List.mem_cons_of_mem _ hx)) h

theorem dcat_dirs_datasets_length {g : Graph} {base : Path}
    {l : List String}
    (hids : ∀ ds ∈ l, seg (_get_identifier ds) = [_get_identifier ds] ∧
      ∀ dist ∈ g.distsOf ds,
        seg (_get_identifier dist) = [_get_identifier dist])
    {q : Path} (hq : q ∈ dirs_datasets g base l) :
    q.length ≤ base.length + 3 := by
  induction l with
  | nil => simp [dirs_datasets] at hq
  | cons ds rest ih =>
    simp only [dirs_datasets] at hq
    rcases List.mem_append.mp hq with h | h
    · exact dcat_dirs_dists_length (hids ds (List.mem_cons_self ds rest)).1
        (hids ds (List.mem_cons_self ds rest)).2 h
    · exact ih (fun x hx => hids x (List.mem_cons_of_mem _ hx)) h

theorem dcat_worker_failures (net : String → Except String (String × String))
    (ts : List Task) :
    (download_worker net ts).2.1 = ts.filterMap (fun t =>
      match net t.url with
      | .ok _ => none
      | .error e => some (t.url ++ " - " ++ e)) := by
  induction ts with
  | nil => rfl
  | cons t rest ih =>
    simp only [download_worker, List.filterMap_cons]
    cases hnet : net t.url with
    | ok p => cases p; simp [ih]
    | error e => simp [ih]

theorem dcat_worker_writes (net : String → Except String (String × String))
    (ts : List Task) :
    (download_worker net ts).1 = ts.filterMap (fun t =>
      match net t.url with
      | .ok r => some (t.filePath, r.2)
      | .error _ => none) := by
  induction ts with
  | nil => rfl
  | cons t rest ih =>
    simp only [download_worker, List.filterMap_cons]
    cases hnet : net t.url with
    | ok p => cases p; simp [ih]
    | error e => simp [ih]

theorem dcat_worker_warnings (net : String → Except String (String × String))
    (ts : List Task) :
    (download_worker net ts).2.2 = (ts.filter (fun t =>
      match net t.url with
      | .ok r => r.1 = "text/html"
      | .error _ => false)).map Task.distId := by
  induction ts with
  | nil => rfl
  | cons t rest ih =>
    simp only [download_worker, List.filter_cons]
    cases hnet : net t.url with
    | ok p =>
      cases p with
      | mk ctype body =>
        by_cases hct : ctype = "text/html" <;> simp [hct, ih]
    | error e => simp [ih]

theorem dcat_worker_all_ok {net : String → Except String (String × String)}
    {ts : List Task} (h : (download_worker net ts).2.1 = []) :
    (download_worker net ts).1.map Prod.fst = ts.map Task.filePath := by
  induction ts with
  | nil => rfl
  | cons t rest ih =>
    simp only [download_worker] at h ⊢
    cases hnet : net t.url with
    | ok p =>
      rw [hnet] at h
      cases p
      simp only at h ⊢
      simp [ih h]
    | error e =>
      rw [hnet] at h
      simp at h

end DCATDownloader

namespace DataJsonDownloader

/-- Unfolding of `run` on a successfully fetched, truthy document. -/
theorem dj_run_unfold (j : Json) (base : Path) (fs : Fs)
    (net : String → Except String String) (htr : j.truthy = true) :
    run (some j) base fs net =
      { ok := true
        fs := (prepare_download_tasks j base
            (mkdirp (mkdirp fs base) (base ++ ["data"]) ++
              [base ++ ["data.json"]])).1 ++
          (download_worker net (prepare_download_tasks j base
            (mkdirp (mkdirp fs base) (base ++ ["data"]) ++
              [base ++ ["data.json"]])).2).1.map Prod.fst
        tasks := (prepare_download_tasks j base
            (mkdirp (mkdirp fs base) (base ++ ["data"]) ++
              [base ++ ["data.json"]])).2
        failures := (download_worker net (prepare_download_tasks j base
            (mkdirp (mkdirp fs base) (base ++ ["data"]) ++
              [base ++ ["data.json"]])).2).2 } := by
  simp [run, htr]

/-- A failure-free run leaves every candidate destination on disk, so a
second run over the resulting filesystem prepares no tasks. -/
theorem dj_run_idempotent (j : Json) (base : Path) (fs : Fs)
    (net net' : String → Except String String)
    (h : (run (some j) base fs net).failures = []) :
    (run (some j) base ((run (some j) base fs net).fs) net').tasks = [] ∧
    (run (some j) base ((run (some j) base fs net).fs) net').failures
      = [] := by
  by_cases htr : j.truthy = true
  · have hu1 := dj_run_unfold j base fs net htr
    rw [hu1] at h ⊢
    have hfail : (download_worker net (prepare_download_tasks j base
        (mkdirp (mkdirp fs base) (base ++ ["data"]) ++
          [base ++ ["data.json"]])).2).2 = [] := h
    set fsA := mkdirp (mkdirp fs base) (base ++ ["data"]) ++
      [base ++ ["data.json"]] with hfsA
    set FS1 := (prepare_download_tasks j base fsA).1 ++
      (download_worker net
        (prepare_download_tasks j base fsA).2).1.map Prod.fst with hFS1
    have hu2 := dj_run_unfold j base FS1 net' htr
    have hgoalfs :
        ({ ok := true, fs := FS1,
           tasks := (prepare_download_tasks j base fsA).2,
           failures := (download_worker net
             (prepare_download_tasks j base fsA).2).2 } : RunOut).fs
          = FS1 := rfl
    rw [hgoalfs, hu2]
    set fsB := mkdirp (mkdirp FS1 base) (base ++ ["data"]) ++
      [base ++ ["data.json"]] with hfsB
    have hinB : ∀ p, p ∈ FS1 → p ∈ fsB := by
      intro p hp
      rw [hfsB]
      exact List.mem_append.mpr (Or.inl
        (mem_mkdirp.mpr (Or.inl (mem_mkdirp.mpr (Or.inl hp)))))
    have hsub : ∀ p, p ∈ fsA → p ∈ fsB := by
      intro p hp
      apply hinB
      rw [hFS1]
      apply List.mem_append.mpr
      left
      unfold prepare_download_tasks
      rw [dj_prep_datasets_fs]
      exact List.mem_append.mpr (Or.inl hp)
    have hempty : (prepare_download_tasks j base fsB).2 = [] := by
      apply dj_prep_datasets_mono hsub
      intro t ht
      apply hinB
      rw [hFS1]
      apply List.mem_append.mpr
      right
      rw [dj_worker_all_ok hfail]
      exact List.mem_map.mpr ⟨t, ht, rfl⟩
    constructor
    · exact hempty
    · show (download_worker net'
        (prepare_download_tasks j base fsB).2).2 = []
      rw [hempty]
      rfl
  · have hf : j.truthy = false := by
      revert htr; cases j.truthy <;> simp
    simp [run, hf]

end DataJsonDownloader

namespace DCATDownloader

/-- Unfolding of `run` on a parsed, non-empty graph. -/
theorem dcat_run_unfold (g : Graph) (base : Path) (nm : String) (fs : Fs)
    (net : String → Except String (String × String))
    (hg : g.tripleCount ≠ 0) :
    run (.parsed g) base nm fs net = Except.ok
      { ok := true
        fs := (prepare_download_tasks g base
            (mkdirp (mkdirp fs base) (base ++ ["data"]) ++
              [pjoin base nm])).1 ++
          (download_worker net (prepare_download_tasks g base
            (mkdirp (mkdirp fs base) (base ++ ["data"]) ++
              [pjoin base nm])).2).1.map Prod.fst
        tasks := (prepare_download_tasks g base
            (mkdirp (mkdirp fs base) (base ++ ["data"]) ++
              [pjoin base nm])).2
        failures := (download_worker net (prepare_download_tasks g base
            (mkdirp (mkdirp fs base) (base ++ ["data"]) ++
              [pjoin base nm])).2).2.1
        warnings := (download_worker net (prepare_download_tasks g base
            (mkdirp (mkdirp fs base) (base ++ ["data"]) ++
              [pjoin base nm])).2).2.2 } := by
  simp [run, hg]

/-- A failure-free DCAT run leaves every candidate destination on disk,
so a second run over the resulting filesystem prepares no tasks. -/
theorem dcat_run_idempotent (g : Graph) (base : Path) (nm : String)
    (fs : Fs) (net net' : String → Except String (String × String))
    (out : RunOut)
    (hout : run (.parsed g) base nm fs net = Except.ok out)
    (h : out.failures = []) :
    ∃ out2, run (.parsed g) base nm out.fs net' = Except.ok out2 ∧
      out2.tasks = [] ∧ out2.failures = [] := by
  by_cases hg : g.tripleCount = 0
  · have hrun : run (.parsed g) base nm fs net = Except.ok
        ⟨false, mkdirp (mkdirp fs base) (base ++ ["data"]) ++
          [pjoin base nm], [], [], []⟩ := by
      simp [run, hg]
    rw [hrun] at hout
    have hout2 : out = ⟨false, mkdirp (mkdirp fs base) (base ++ ["data"])
        ++ [pjoin base nm], [], [], []⟩ :=
      ((Except.ok.injEq _ _).mp hout).symm
    subst hout2
    refine ⟨⟨false, mkdirp (mkdirp (mkdirp (mkdirp fs base)
        (base ++ ["data"]) ++ [pjoin base nm]) base) (base ++ ["data"]) ++
        [pjoin base nm], [], [], []⟩, ?_, rfl, rfl⟩
    simp [run, hg]
  · have hu1 := dcat_run_unfold g base nm fs net hg
    rw [hu1] at hout
    have hout2 : out = _ := (Except.ok.injEq _ _).mp hout.symm
    subst hout2
    have hfail : (download_worker net (prepare_download_tasks g base
        (mkdirp (mkdirp fs base) (base ++ ["data"]) ++
          [pjoin base nm])).2).2.1 = [] := h
    set fsA := mkdirp (mkdirp fs base) (base ++ ["data"]) ++
      [pjoin base nm] with hfsA
    set FS1 := (prepare_download_tasks g base fsA).1 ++
      (download_worker net
        (prepare_download_tasks g base fsA).2).1.map Prod.fst with hFS1
    have hu2 := dcat_run_unfold g base nm FS1 net' hg
    set fsB := mkdirp (mkdirp FS1 base) (base ++ ["data"]) ++
      [pjoin base nm] with hfsB
    have hinB : ∀ p, p ∈ FS1 → p ∈ fsB := by
      intro p hp
      rw [hfsB]
      exact List.mem_append.mpr (Or.inl
        (mem_mkdirp.mpr (Or.inl (mem_mkdirp.mpr (Or.inl hp)))))
    have hsub : ∀ p, p ∈ fsA → p ∈ fsB := by
      intro p hp
      apply hinB
      rw [hFS1]
      apply List.mem_append.mpr
      left
      unfold prepare_download_tasks
      rw [dcat_prep_datasets_fs]
      exact List.mem_append.mpr (Or.inl hp)
    have hempty : (prepare_download_tasks g base fsB).2 = [] := by
      apply dcat_prep_datasets_mono hsub
      intro t ht
      apply hinB
      rw [hFS1]
      apply List.mem_append.mpr
      right
      rw [dcat_worker_all_ok hfail]
      exact List.mem_map.mpr ⟨t, ht, rfl⟩
    refine ⟨_, hu2, ?_, ?_⟩
    · exact hempty
    · show (download_worker net'
        (prepare_download_tasks g base fsB).2).2.1 = []
      rw [hempty]
      rfl

end DCATDownloader

/-!
The claims.
-/

/-- Claim C1 counterexample: the empty JSON object `{}` is fetched and
parsed successfully, yet `run` returns `false` — `if not data:` tests
Python falsiness of the parsed document, not fetch/parse failure, so the
claimed equivalence (`false` iff the catalog could not be fetched or
parsed) fails at this input. -/
theorem c1_counterexample :
    (DataJsonDownloader.run (some (Json.obj [])) ["output", "h"] []
      (fun _ => Except.error "e")).ok = false ∧
    some (Json.obj []) ≠ (none : Option Json) := by
  refine ⟨by decide, by simp⟩

/-- Claim C1 (amended): the data.json `run` returns `false` iff the
catalog could not be fetched or parsed or the parsed document is falsy
(e.g. empty); in every other case it returns `true`, even when every
download fails.  On the DCAT path, a fetch failure (or an empty parsed
graph) yields `false`, but a parse failure propagates as an uncaught
exception instead of returning `false`. -/
theorem c1_amended_success_criterion :
    (∀ (fetched : Option Json) (base : Path) (fs : Fs)
      (net : String → Except String String),
      (DataJsonDownloader.run fetched base fs net).ok = false ↔
        (fetched = none ∨ ∃ j, fetched = some j ∧ j.truthy = false)) ∧
    (∀ (f : DCATDownloader.FetchOutcome) (base : Path) (nm : String)
      (fs : Fs) (net : String → Except String (String × String)),
      ((DCATDownloader.run f base nm fs net = Except.error ()) ↔
        f = DCATDownloader.FetchOutcome.parseFail) ∧
      ((∃ out, DCATDownloader.run f base nm fs net = Except.ok out ∧
          out.ok = false) ↔
        (f = DCATDownloader.FetchOutcome.fetchFail ∨
          ∃ g, f = DCATDownloader.FetchOutcome.parsed g ∧
            g.tripleCount = 0))) := by
  constructor
  · intro fetched base fs net
    cases fetched with
    | none => simp [DataJsonDownloader.run]
    | some j =>
      by_cases htr : j.truthy <;>
        simp [DataJsonDownloader.run, htr]
  · intro f base nm fs net
    cases f with
    | fetchFail => simp [DCATDownloader.run]
    | parseFail => simp [DCATDownloader.run]
    | parsed g =>
      by_cases hg : g.tripleCount = 0 <;>
        simp [DCATDownloader.run, hg]

/-- Claim C2 counterexample: a catalog with two datasets that both lack
identifiers (falling back to `unknown_dataset`/`unknown_distribution`)
and carry the same download URL produces two enqueued tasks with the
same destination path — the claimed pairwise distinctness fails, and
precisely in the fallback case the claim includes. -/
theorem c2_counterexample :
    (DataJsonDownloader.prepare_download_tasks
        (Json.obj [("dataset", Json.arr [
          Json.obj [("distribution", Json.arr [
            Json.obj [("downloadURL", Json.str "http://x/a.csv")]])],
          Json.obj [("distribution", Json.arr [
            Json.obj [("downloadURL", Json.str "http://x/a.csv")]])]])])
        ["output", "h"] []).2.map Task.filePath =
      [["output", "h", "data", "unknown_dataset", "unknown_distribution",
        "a.csv"],
       ["output", "h", "data", "unknown_dataset", "unknown_distribution",
        "a.csv"]] ∧
    ¬ ((DataJsonDownloader.prepare_download_tasks
        (Json.obj [("dataset", Json.arr [
          Json.obj [("distribution", Json.arr [
            Json.obj [("downloadURL", Json.str "http://x/a.csv")]])],
          Json.obj [("distribution", Json.arr [
            Json.obj [("downloadURL", Json.str "http://x/a.csv")]])]])])
        ["output", "h"] []).2.map Task.filePath).Nodup := by
  refine ⟨by decide, by decide⟩

/-- Claim C2 (amended): destination paths are pairwise distinct only as
far as the (datasetID, distributionID, fileName) triples are: when each
component is a string that `pathlib` keeps as a single part of itself
(`seg x = [x]`: non-empty, not `.`, no `/`, not absolute), distinct
triples yield distinct destination paths — while equal triples (e.g.
the missing-identifier fallbacks, as the counterexample shows) or
components `pathlib` normalizes away collide. -/
theorem c2_amended_dest_path_injective (base : Path)
    (a b c a' b' c' : String)
    (ha : seg a = [a]) (hb : seg b = [b]) (hc : seg c = [c])
    (ha' : seg a' = [a']) (hb' : seg b' = [b']) (hc' : seg c' = [c'])
    (hne : (a, b, c) ≠ (a', b', c')) :
    DataJsonDownloader.dest_path base a b c ≠
      DataJsonDownloader.dest_path base a' b' c' := by
  intro h
  simp only [DataJsonDownloader.dest_path, DataJsonDownloader.dest_dir] at h
  rw [pjoin_seg_single hc, pjoin_seg_single hb, pjoin_seg_single ha,
    pjoin_seg_single hc', pjoin_seg_single hb', pjoin_seg_single ha',
    pjoin_seg_single DataJsonDownloader.seg_data] at h
  simp only [List.append_assoc] at h
  have h2 := List.append_cancel_left h
  simp only [List.cons_append, List.nil_append, List.cons.injEq,
    and_true] at h2
  exact hne (by simp [Prod.ext_iff]; exact h2.2)

/-- Claim C2 witness: the amended claim at concrete slash-free inputs. -/
theorem c2_witness :
    DataJsonDownloader.dest_path ["output", "h"] "a" "b" "c" ≠
      DataJsonDownloader.dest_path ["output", "h"] "a2" "b" "c" :=
  c2_amended_dest_path_injective ["output", "h"] "a" "b" "c" "a2" "b" "c"
    (by decide) (by decide) (by decide) (by decide) (by decide) (by decide)
    (by decide)

/-- Claim C3: for every distribution that contributes a task, the file
name component of the destination is resolved in priority order — on the
data.json path via `resolve_filename`, which prefers the truthy
`fileName` field (a), then the URL-derived name (b), then `dist_<id>`
(c); on the DCAT path the graph exposes no filename field, so tier (a)
is vacuous, and every contributing task's name is the URL-derived name
(b), non-empty — tier (c) is never reached there because a distribution
whose URL yields no file name contributes no task at all (its
destination collapses to the just-created distribution directory and is
skipped as existing). -/
theorem c3_filename_resolution :
    (∀ (data : Json) (base : Path) (fs : Fs) (t : Task),
      t ∈ (DataJsonDownloader.prepare_download_tasks data base fs).2 →
      ∃ ds ∈ data.getList "dataset", ∃ d ∈ ds.getList "distribution",
        d.getOptStr "downloadURL" = some t.url ∧ t.url ≠ "" ∧
        t.filePath = DataJsonDownloader.dest_path base
          (DataJsonDownloader.ds_id ds) (DataJsonDownloader.dist_id d)
          (DataJsonDownloader.resolve_filename d t.url
            (DataJsonDownloader.dist_id d))) ∧
    (∀ (d : Json) (url i : String),
      (∀ f, d.getOptStr "fileName" = some f → f ≠ "" →
        DataJsonDownloader.resolve_filename d url i = f) ∧
      ((d.getOptStr "fileName" = none ∨ d.getOptStr "fileName" = some "") →
        DataJsonDownloader._extract_file_from_url url ≠ "" →
        DataJsonDownloader.resolve_filename d url i =
          DataJsonDownloader._extract_file_from_url url) ∧
      ((d.getOptStr "fileName" = none ∨ d.getOptStr "fileName" = some "") →
        DataJsonDownloader._extract_file_from_url url = "" →
        DataJsonDownloader.resolve_filename d url i = "dist_" ++ i)) ∧
    (∀ (g : DCATDownloader.Graph) (base : Path) (fs : Fs) (t : Task),
      t ∈ (DCATDownloader.prepare_download_tasks g base fs).2 →
      DCATDownloader._extract_file_from_url t.url ≠ "" ∧
      ∃ ds ∈ g.datasets.take 5, ∃ dist ∈ g.distsOf ds,
        t.filePath = pjoin (pjoin (pjoin (base ++ ["data"])
          (DCATDownloader._get_identifier ds))
          (DCATDownloader._get_identifier dist))
          (DCATDownloader._extract_file_from_url t.url)) := by
  refine ⟨?_, ?_, ?_⟩
  · intro data base fs t ht
    obtain ⟨ds, hds, d, hd, url, hurl, hu, hteq⟩ :=
      DataJsonDownloader.dj_prep_datasets_shape ht
    subst hteq
    exact ⟨ds, hds, d, hd, hurl, hu, rfl⟩
  · intro d url i
    refine ⟨?_, ?_, ?_⟩
    · intro f hf hfne
      simp [DataJsonDownloader.resolve_filename, hf, hfne]
    · intro hf hex
      rcases hf with hf | hf <;>
        simp [DataJsonDownloader.resolve_filename, hf, hex]
    · intro hf hex
      rcases hf with hf | hf <;>
        simp [DataJsonDownloader.resolve_filename, hf, hex]
  · intro g base fs t ht
    obtain ⟨ds, hds, dist, hdist, url, hurl, hu, hfn, hteq⟩ :=
      DCATDownloader.dcat_prep_datasets_shape ht
    subst hteq
    exact ⟨hfn, ds, hds, dist, hdist, rfl⟩

/-- Claim C3 witness: the three data.json resolution tiers at concrete
inputs — an explicit filename wins, then `report.csv` from the URL, then
the synthesized `dist_i`. -/
theorem c3_witness :
    DataJsonDownloader.resolve_filename
      (Json.obj [("fileName", Json.str "n.bin")]) "http://x/a.csv" "i"
      = "n.bin" ∧
    DataJsonDownloader.resolve_filename
      (Json.obj []) "http://x/report.csv" "i" = "report.csv" ∧
    DataJsonDownloader.resolve_filename
      (Json.obj []) "http://x" "i" = "dist_i" :=
  ⟨(c3_filename_resolution.2.1 (Json.obj [("fileName", Json.str "n.bin")])
      "http://x/a.csv" "i").1 "n.bin" (by decide) (by decide),
   ((c3_filename_resolution.2.1 (Json.obj []) "http://x/report.csv"
      "i").2.1 (Or.inl (by decide)) (by decide)).trans (by decide),
   (c3_filename_resolution.2.1 (Json.obj []) "http://x" "i").2.2
      (Or.inl (by decide)) (by decide)⟩

/-- Claim C4: a task whose destination already exists when tasks are
prepared is dropped, and workers only ever write paths of enqueued tasks
(so a pre-existing file is never overwritten); consequently, after a
failure-free run, a second run of either variant against the resulting
output directory enqueues zero tasks and reports no failures. -/
theorem c4_skip_existing_idempotent :
    (∀ (data : Json) (base : Path) (fs : Fs) (t : Task),
      t ∈ (DataJsonDownloader.prepare_download_tasks data base fs).2 →
      t.filePath ∉ fs) ∧
    (∀ (g : DCATDownloader.Graph) (base : Path) (fs : Fs) (t : Task),
      t ∈ (DCATDownloader.prepare_download_tasks g base fs).2 →
      t.filePath ∉ fs) ∧
    (∀ (net : String → Except String String) (ts : List Task)
      (p : Path × String),
      p ∈ (DataJsonDownloader.download_worker net ts).1 →
      p.1 ∈ ts.map Task.filePath) ∧
    (∀ (net : String → Except String (String × String)) (ts : List Task)
      (p : Path × String),
      p ∈ (DCATDownloader.download_worker net ts).1 →
      p.1 ∈ ts.map Task.filePath) ∧
    (∀ (j : Json) (base : Path) (fs : Fs)
      (net net' : String → Except String String),
      (DataJsonDownloader.run (some j) base fs net).failures = [] →
      (DataJsonDownloader.run (some j) base
        ((DataJsonDownloader.run (some j) base fs net).fs) net').tasks
        = [] ∧
      (DataJsonDownloader.run (some j) base
        ((DataJsonDownloader.run (some j) base fs net).fs) net').failures
        = []) ∧
    (∀ (g : DCATDownloader.Graph) (base : Path) (nm : String) (fs : Fs)
      (net net' : String → Except String (String × String))
      (out : DCATDownloader.RunOut),
      DCATDownloader.run (.parsed g) base nm fs net = Except.ok out →
      out.failures = [] →
      ∃ out2, DCATDownloader.run (.parsed g) base nm out.fs net' =
        Except.ok out2 ∧ out2.tasks = [] ∧ out2.failures = []) := by
  refine ⟨?_, ?_, ?_, ?_, ?_, ?_⟩
  · intro data base fs t ht
    exact DataJsonDownloader.dj_prep_datasets_fresh ht
  · intro g base fs t ht
    exact DCATDownloader.dcat_prep_datasets_fresh ht
  · intro net ts p hp
    rw [DataJsonDownloader.dj_worker_writes] at hp
    obtain ⟨t, ht, heq⟩ := List.mem_filterMap.mp hp
    cases hnet : net t.url with
    | ok body =>
      rw [hnet] at heq
      simp only [Option.some.injEq] at heq
      exact List.mem_map.mpr ⟨t, ht, by rw [← heq]⟩
    | error e =>
      rw [hnet] at heq
      simp at heq
  · intro net ts p hp
    rw [DCATDownloader.dcat_worker_writes] at hp
    obtain ⟨t, ht, heq⟩ := List.mem_filterMap.mp hp
    cases hnet : net t.url with
    | ok r =>
      rw [hnet] at heq
      simp only [Option.some.injEq] at heq
      exact List.mem_map.mpr ⟨t, ht, by rw [← heq]⟩
    | error e =>
      rw [hnet] at heq
      simp at heq
  · intro j base fs net net' h
    exact DataJsonDownloader.dj_run_idempotent j base fs net net' h
  · intro g base nm fs net net' out hout h
    exact DCATDownloader.dcat_run_idempotent g base nm fs net net' out hout h

/-- Claim C4 witness: at a concrete one-task catalog with an
all-successful network, the first run reports no failures and the second
run enqueues nothing and fails nothing. -/
theorem c4_witness :
    (DataJsonDownloader.run
      (some (Json.obj [("dataset", Json.arr [Json.obj [
        ("identifier", Json.str "ds"),
        ("distribution", Json.arr [Json.obj [
          ("identifier", Json.str "d"),
          ("downloadURL", Json.str "http://x/a.csv")]])]])]))
      ["output", "h"]
      ((DataJsonDownloader.run
        (some (Json.obj [("dataset", Json.arr [Json.obj [
          ("identifier", Json.str "ds"),
          ("distribution", Json.arr [Json.obj [
            ("identifier", Json.str "d"),
            ("downloadURL", Json.str "http://x/a.csv")]])]])]))
        ["output", "h"] [] (fun _ => Except.ok "bytes")).fs)
      (fun _ => Except.error "down")).tasks = [] :=
  (c4_skip_existing_idempotent.2.2.2.2.1
    (Json.obj [("dataset", Json.arr [Json.obj [
      ("identifier", Json.str "ds"),
      ("distribution", Json.arr [Json.obj [
        ("identifier", Json.str "d"),
        ("downloadURL", Json.str "http://x/a.csv")]])]])])
    ["output", "h"] [] (fun _ => Except.ok "bytes")
    (fun _ => Except.error "down") (by decide)).1

/-- Claim C6: a worker that hits a fetch or write error on a task
appends exactly one `url - message` record to the failure list and moves
on — the failure list is exactly one record per failing task, every
non-failing task is still written (reaches its terminal state), no task
is retried or requeued (each task is consumed exactly once by the
fold), and the run-level result stays `true` regardless of download
outcomes. -/
theorem c6_worker_failure_isolation :
    (∀ (net : String → Except String String) (ts : List Task),
      (DataJsonDownloader.download_worker net ts).2 = ts.filterMap
        (fun t => match net t.url with
          | .ok _ => none
          | .error e => some (t.url ++ " - " ++ e)) ∧
      (DataJsonDownloader.download_worker net ts).1 = ts.filterMap
        (fun t => match net t.url with
          | .ok body => some (t.filePath, body)
          | .error _ => none)) ∧
    (∀ (net : String → Except String (String × String)) (ts : List Task),
      (DCATDownloader.download_worker net ts).2.1 = ts.filterMap
        (fun t => match net t.url with
          | .ok _ => none
          | .error e => some (t.url ++ " - " ++ e)) ∧
      (DCATDownloader.download_worker net ts).1 = ts.filterMap
        (fun t => match net t.url with
          | .ok r => some (t.filePath, r.2)
          | .error _ => none)) ∧
    (∀ (j : Json) (base : Path) (fs : Fs)
      (net : String → Except String String),
      j.truthy = true →
      (DataJsonDownloader.run (some j) base fs net).ok = true) ∧
    (∀ (g : DCATDownloader.Graph) (base : Path) (nm : String) (fs : Fs)
      (net : String → Except String (String × String)),
      g.tripleCount ≠ 0 →
      ∃ out, DCATDownloader.run (.parsed g) base nm fs net =
        Except.ok out ∧ out.ok = true) := by
  refine ⟨?_, ?_, ?_, ?_⟩
  · intro net ts
    exact ⟨DataJsonDownloader.dj_worker_failures net ts,
           DataJsonDownloader.dj_worker_writes net ts⟩
  · intro net ts
    exact ⟨DCATDownloader.dcat_worker_failures net ts,
           DCATDownloader.dcat_worker_writes net ts⟩
  · intro j base fs net htr
    rw [DataJsonDownloader.dj_run_unfold j base fs net htr]
  · intro g base nm fs net hg
    exact ⟨_, DCATDownloader.dcat_run_unfold g base nm fs net hg, rfl⟩

/-- Claim C6 witness: a truthy catalog whose every download fails still
reports run-level success. -/
theorem c6_witness :
    (DataJsonDownloader.run (some (Json.obj [("a", Json.num 1)]))
      ["output", "h"] [] (fun _ => Except.error "boom")).ok = true :=
  c6_worker_failure_isolation.2.2.1 (Json.obj [("a", Json.num 1)])
    ["output", "h"] [] (fun _ => Except.error "boom") (by decide)

/-- Claim C7 counterexample: a distribution carrying a present but empty
`downloadURL` together with a non-empty `accessURL` is resolved to the
`accessURL` — the code tests truthiness, not presence, so the claimed
"downloadURL is used when present" fails at this input. -/
theorem c7_counterexample :
    DCATDownloader._get_download_url
        { datasets := ["http://h/dataset/d1"]
          distsOf := fun d => if d = "http://h/dataset/d1"
            then ["http://h/dataset/d1/resource/r1"] else []
          dlUrl := fun _ => some ""
          accUrl := fun d => if d = "http://h/dataset/d1/resource/r1"
            then some "http://x/f.csv" else none
          tripleCount := 3 } "http://h/dataset/d1/resource/r1"
      = some "http://x/f.csv" ∧
    (DCATDownloader.prepare_download_tasks
        { datasets := ["http://h/dataset/d1"]
          distsOf := fun d => if d = "http://h/dataset/d1"
            then ["http://h/dataset/d1/resource/r1"] else []
          dlUrl := fun _ => some ""
          accUrl := fun d => if d = "http://h/dataset/d1/resource/r1"
            then some "http://x/f.csv" else none
          tripleCount := 3 } ["output", "h"] []).2.map Task.url
      = ["http://x/f.csv"] := by
  refine ⟨by decide, by decide⟩

/-- Claim C7 (amended): `downloadURL` is used when present and truthy
(non-empty); when it is absent or empty the `accessURL` value (possibly
absent) is used; and a task is created only for distributions whose
resolved URL is present and non-empty. -/
theorem c7_amended_url_resolution :
    (∀ (g : DCATDownloader.Graph) (dist s : String),
      g.dlUrl dist = some s → s ≠ "" →
      DCATDownloader._get_download_url g dist = some s) ∧
    (∀ (g : DCATDownloader.Graph) (dist : String),
      (g.dlUrl dist = none ∨ g.dlUrl dist = some "") →
      DCATDownloader._get_download_url g dist = g.accUrl dist) ∧
    (∀ (g : DCATDownloader.Graph) (base : Path) (fs : Fs) (t : Task),
      t ∈ (DCATDownloader.prepare_download_tasks g base fs).2 →
      t.url ≠ "" ∧
      ∃ dist, DCATDownloader._get_download_url g dist = some t.url) := by
  refine ⟨?_, ?_, ?_⟩
  · intro g dist s h hs
    simp [DCATDownloader._get_download_url, h, hs]
  · intro g dist h
    rcases h with h | h <;> simp [DCATDownloader._get_download_url, h]
  · intro g base fs t ht
    obtain ⟨ds, hds, dist, hdist, url, hurl, hu, hfn, hteq⟩ :=
      DCATDownloader.dcat_prep_datasets_shape ht
    subst hteq
    exact ⟨hu, dist, hurl⟩

/-- Claim C7 witness: the amended claim at concrete inputs. -/
theorem c7_witness :
    DCATDownloader._get_download_url
        { datasets := []
          distsOf := fun _ => []
          dlUrl := fun _ => some "http://x/dl.csv"
          accUrl := fun _ => some "http://x/page"
          tripleCount := 0 } "r" = some "http://x/dl.csv" ∧
    DCATDownloader._get_download_url
        { datasets := []
          distsOf := fun _ => []
          dlUrl := fun _ => none
          accUrl := fun _ => some "http://x/page"
          tripleCount := 0 } "r" = some "http://x/page" :=
  ⟨c7_amended_url_resolution.1 _ "r" "http://x/dl.csv" rfl (by decide),
   (c7_amended_url_resolution.2.1 _ "r" (Or.inl rfl)).trans rfl⟩

/-- Claim C8: a DCAT download whose response declares content type
`text/html` is warned about (the warning names the distribution id) but
its body is still written verbatim to the destination path, and the
failure ledger still records exactly the tasks whose fetch raised — an
HTML content type is never itself a failure. -/
theorem c8_html_still_written
    (net : String → Except String (String × String)) (ts : List Task)
    (t : Task) (b : String) (ht : t ∈ ts)
    (hnet : net t.url = Except.ok ("text/html", b)) :
    (t.filePath, b) ∈ (DCATDownloader.download_worker net ts).1 ∧
    t.distId ∈ (DCATDownloader.download_worker net ts).2.2 ∧
    (DCATDownloader.download_worker net ts).2.1 = ts.filterMap (fun x =>
      match net x.url with
      | .ok _ => none
      | .error e => some (x.url ++ " - " ++ e)) := by
  refine ⟨?_, ?_, DCATDownloader.dcat_worker_failures net ts⟩
  · rw [DCATDownloader.dcat_worker_writes]
    exact List.mem_filterMap.mpr ⟨t, ht, by simp [hnet]⟩
  · rw [DCATDownloader.dcat_worker_warnings]
    exact List.mem_map.mpr ⟨t, List.mem_filter.mpr ⟨ht, by simp [hnet]⟩, rfl⟩

/-- Claim C8 witness: at a concrete one-task queue whose response is
`text/html`, the body is written, the warning is recorded and no
failure is recorded. -/
theorem c8_witness :
    ((["p"] : Path), "body") ∈
      (DCATDownloader.download_worker
        (fun _ => Except.ok ("text/html", "body")) [⟨"u", ["p"], "d"⟩]).1 ∧
    "d" ∈ (DCATDownloader.download_worker
        (fun _ => Except.ok ("text/html", "body")) [⟨"u", ["p"], "d"⟩]).2.2 :=
  ⟨(c8_html_still_written (fun _ => Except.ok ("text/html", "body"))
      [⟨"u", ["p"], "d"⟩] ⟨"u", ["p"], "d"⟩ "body"
      (List.mem_singleton.mpr rfl) rfl).1,
   (c8_html_still_written (fun _ => Except.ok ("text/html", "body"))
      [⟨"u", ["p"], "d"⟩] ⟨"u", ["p"], "d"⟩ "body"
      (List.mem_singleton.mpr rfl) rfl).2.1⟩

/-- Claim C9 counterexample: preparing tasks is not a pure
transformation of the parsed document — on a fresh filesystem it
creates the distribution directories (the filesystem state changes),
and its output depends on the filesystem (the same catalog yields a
task on a fresh directory and none when the destination file exists). -/
theorem c9_counterexample :
    (DataJsonDownloader.prepare_download_tasks
        (Json.obj [("dataset", Json.arr [Json.obj [
          ("identifier", Json.str "ds"),
          ("distribution", Json.arr [Json.obj [
            ("identifier", Json.str "d"),
            ("downloadURL", Json.str "http://x/a.csv")]])]])])
        ["output", "h"] []).1 ≠ [] ∧
    (DataJsonDownloader.prepare_download_tasks
        (Json.obj [("dataset", Json.arr [Json.obj [
          ("identifier", Json.str "ds"),
          ("distribution", Json.arr [Json.obj [
            ("identifier", Json.str "d"),
            ("downloadURL", Json.str "http://x/a.csv")]])]])])
        ["output", "h"]
        [["output", "h", "data", "ds", "d", "a.csv"]]).2 ≠
      (DataJsonDownloader.prepare_download_tasks
        (Json.obj [("dataset", Json.arr [Json.obj [
          ("identifier", Json.str "ds"),
          ("distribution", Json.arr [Json.obj [
            ("identifier", Json.str "d"),
            ("downloadURL", Json.str "http://x/a.csv")]])]])])
        ["output", "h"] []).2 := by
  refine ⟨by decide, by decide⟩

/-- Claim C9 (amended): task preparation is deterministic in the parsed
document and the filesystem, performs no fetches and writes no files,
but it does read the filesystem (existence checks) and its only
filesystem effect is creating the distribution directories, which are
determined by the catalog alone. -/
theorem c9_amended_frame :
    (∀ (data : Json) (base : Path) (fs : Fs),
      (DataJsonDownloader.prepare_download_tasks data base fs).1 =
        fs ++ DataJsonDownloader.dirs_datasets base
          (data.getList "dataset")) ∧
    (∀ (g : DCATDownloader.Graph) (base : Path) (fs : Fs),
      (DCATDownloader.prepare_download_tasks g base fs).1 =
        fs ++ DCATDownloader.dirs_datasets g base (g.datasets.take 5)) := by
  constructor
  · intro data base fs
    exact DataJsonDownloader.dj_prep_datasets_fs base _ fs
  · intro g base fs
    exact DCATDownloader.dcat_prep_datasets_fs g base _ fs

/-- Claim C10: identifiers and file names are interpolated verbatim into
the destination path with no sanitization — a dataset identifier
`../../secret` survives into the path parts unchanged — and the
resulting destination, once `..` segments are resolved, lies outside
the `output/h/data` nesting. -/
theorem c10_path_traversal :
    (DataJsonDownloader.prepare_download_tasks
        (Json.obj [("dataset", Json.arr [Json.obj [
          ("identifier", Json.str "../../secret"),
          ("distribution", Json.arr [Json.obj [
            ("identifier", Json.str "d"),
            ("downloadURL", Json.str "http://x/a.csv")]])]])])
        ["output", "h"] []).2 =
      [⟨"http://x/a.csv",
        ["output", "h", "data", "..", "..", "secret", "d", "a.csv"],
        "d"⟩] ∧
    (normalize_segments
        ["output", "h", "data", "..", "..", "secret", "d", "a.csv"]).take 3
      ≠ ["output", "h", "data"] := by
  refine ⟨by decide, by decide⟩

end CkanRescue
